import Mathlib

/-!
Verification of the mask-alignment and pixel-rewrite core of maskTiff4Maud.

The Python source (maskTiff4Maud.py, class clearMaskGui) carries three
algorithmic operations over 2D numeric arrays:

  * mask alignment (numpy.rot90 by `nrotmask` quarter turns, then
    numpy.flipud if `flipud`, then numpy.fliplr if `fliplr`),
  * `checkForNegativeValues` (restricts the shifted intensities to pixels
    where the aligned mask is not 1 and, when the minimum there is
    negative, computes the recommended shift `intensityshift - minval`),
  * `correctedData` (adds the intensity shift, then overwrites with the
    sentinel -1 every pixel where the aligned mask equals 1).

Arrays are embedded as lists of rows of integers.  numpy failure modes are
made explicit: a missing image or mask yields `EngineError.missingInput`
(the Python methods return False), a boolean-index shape mismatch yields
`EngineError.dimensionMismatch` (numpy raises IndexError), and Python's
`min` applied to an empty selection yields `EngineError.emptyMin`
(Python raises ValueError).
-/

namespace MaskTiff

/-- A 2D numeric array: a list of rows of integers. -/
abbrev Mat := List (List Int)

/-- Number of rows (numpy `dim1` / `shape[0]`). -/
def numRows (m : Mat) : Nat := m.length

/-- Number of columns, read off the first row (numpy `dim2` / `shape[1]`). -/
def numCols (m : Mat) : Nat := (m.head?.getD []).length

/-- The shape `(rows, cols)` of an array. -/
def dims (m : Mat) : Nat × Nat := (numRows m, numCols m)

/-- Well-formedness: every row has the same length, so the list of lists
really denotes a rectangular numpy array. -/
def isRect (m : Mat) : Prop := ∀ r ∈ m, r.length = numCols m

instance (m : Mat) : Decidable (isRect m) :=
  inferInstanceAs (Decidable (∀ r ∈ m, r.length = numCols m))

/-- Pixel access `m[i][j]`, defaulting to 0 out of range. -/
def getPx (m : Mat) (i j : Nat) : Int := (m.getD i []).getD j 0

/-- Matrix transpose (column `j` of `m` becomes row `j`). -/
def transposeM (m : Mat) : Mat :=
  (List.range (numCols m)).map (fun j => m.map (fun r => r.getD j 0))

/-- One 90° counter-clockwise quarter turn, numpy.rot90 with k = 1:
transpose, then reverse the order of the rows. -/
def rot90 (m : Mat) : Mat := (transposeM m).reverse

/-- numpy.rot90(m, k): k applications of the quarter turn. -/
def rotateMask (m : Mat) (k : Nat) : Mat := rot90^[k] m

/-- numpy.flipud: reverse the order of the rows (vertical flip). -/
def flipud (m : Mat) : Mat := m.reverse

/-- numpy.fliplr: reverse every row (horizontal flip). -/
def fliplr (m : Mat) : Mat := m.map List.reverse

/-- Mask alignment as performed in `correctedData` (lines 463-468):
rotate by `k` quarter turns, then flip vertically if `fu`, then flip
horizontally if `fl`. -/
def alignMask (m : Mat) (k : Nat) (fu fl : Bool) : Mat :=
  let m1 := rotateMask m k
  let m2 := if fu then flipud m1 else m1
  if fl then fliplr m2 else m2

/-- Element-wise `image.data + intensityshift` (numpy broadcasting of a
scalar over a 2D array; allocates a new array). -/
def matAdd (m : Mat) (s : Int) : Mat := m.map (fun r => r.map (fun x => x + s))

/-- The store `thisdata[maskdata == 1] = -1`: overwrite with the sentinel -1 every
pixel whose mask value equals 1. -/
def writeSentinel (t mask : Mat) : Mat :=
  List.zipWith (fun tr mr => List.zipWith (fun x v => if v = 1 then -1 else x) tr mr) t mask

/-- One row of the boolean selection `thisdata[maskdata != 1]`: keep the
data entries whose mask entry differs from 1, in order. -/
def rowSelect (tr mr : List Int) : List Int :=
  (tr.zip mr).filterMap (fun pr => if pr.2 ≠ 1 then some pr.1 else none)

/-- The flattened boolean selection `thisdata[maskdata != 1]` in row-major
order. -/
def selectUnmasked (t mask : Mat) : List Int :=
  (List.zipWith rowSelect t mask).flatten

/-- Failure modes of the engine, made explicit: the Python code returns
False on a missing input, numpy raises IndexError on a boolean-index shape
mismatch, and Python's `min` raises ValueError on an empty selection. -/
inductive EngineError where
  | missingInput
  | dimensionMismatch
  | emptyMin
deriving DecidableEq

instance {ε α : Type} [DecidableEq ε] [DecidableEq α] : DecidableEq (Except ε α) := fun x y =>
  match x, y with
  | .ok a, .ok b =>
      if h : a = b then isTrue (by rw [h]) else isFalse (by intro hh; injection hh; contradiction)
  | .error a, .error b =>
      if h : a = b then isTrue (by rw [h]) else isFalse (by intro hh; injection hh; contradiction)
  | .ok _, .error _ => isFalse (by intro hh; exact Except.noConfusion hh)
  | .error _, .ok _ => isFalse (by intro hh; exact Except.noConfusion hh)

/-- Embeds `clearMaskGui.correctedData` (lines 459-471): returns False when the
image or the mask is missing; otherwise adds the intensity shift to the
image, aligns the mask (rot90 by `nrot`, then flipud, then fliplr), and
overwrites with -1 every pixel where the aligned mask equals 1.  The
boolean assignment `thisdata[idx] = -1` raises IndexError when the aligned
mask's shape differs from the data's shape. -/
def correctedData (image mask : Option Mat) (nrot : Nat) (fu fl : Bool) (shift : Int) :
    Except EngineError Mat :=
  match image, mask with
  | none, _ => .error .missingInput
  | some _, none => .error .missingInput
  | some img, some msk =>
    let thisdata := matAdd img shift
    let maskdata := alignMask msk nrot fu fl
    if dims maskdata = dims thisdata then
      .ok (writeSentinel thisdata maskdata)
    else
      .error .dimensionMismatch

/-- Mask alignment as performed in `checkForNegativeValues` and
`change_mask` (lines 444-449 and 354-361): identical to `alignMask` except
that the rotation is only applied under the guard `if (self.nrotmask > 0)`. -/
def alignMaskGuarded (m : Mat) (k : Nat) (fu fl : Bool) : Mat :=
  let m1 := if 0 < k then rotateMask m k else m
  let m2 := if fu then flipud m1 else m1
  if fl then fliplr m2 else m2

/-- Embeds `clearMaskGui.checkForNegativeValues` (lines 439-454): returns False
when the image or the mask is missing; otherwise adds the intensity shift,
aligns the mask (rot90 only when `0 < nrot`, then flipud, then fliplr),
selects the data at pixels where the aligned mask is not 1 (IndexError on a
shape mismatch), takes the minimum of that selection (ValueError when it is
empty), and when the minimum is negative reports the recommended shift
`shift - minval`; otherwise no warning is raised. -/
def checkForNegativeValues (image mask : Option Mat) (nrot : Nat) (fu fl : Bool) (shift : Int) :
    Except EngineError (Option Int) :=
  match image, mask with
  | none, _ => .error .missingInput
  | some _, none => .error .missingInput
  | some img, some msk =>
    let thisdata := matAdd img shift
    let maskdata := alignMaskGuarded msk nrot fu fl
    if dims maskdata = dims thisdata then
      match (selectUnmasked thisdata maskdata).min? with
      | none => .error .emptyMin
      | some minval => if minval < 0 then .ok (some (shift - minval)) else .ok none
    else
      .error .dimensionMismatch

/-- Embeds `clearMaskGui.save_tif` (lines 477-491): when the image or the mask is
missing, warns "Data or mask is missing. Nothing to save." and returns
without producing anything; otherwise the array written to disk is exactly
`correctedData`. -/
def save_tif (image mask : Option Mat) (nrot : Nat) (fu fl : Bool) (shift : Int) :
    Except EngineError Mat :=
  match image, mask with
  | none, _ => .error .missingInput
  | some _, none => .error .missingInput
  | some img, some msk => correctedData (some img) (some msk) nrot fu fl shift

/-- A heap of arrays by identity, to model numpy aliasing and in-place
updates: `correctedData` first evaluates `self.image.data +
self.intensityshift`, which allocates a fresh array, and then performs the
in-place store `thisdata[idx] = -1` on that fresh array only. -/
def heapCorrectedData (heap : List Mat) (imageId maskId : Nat) (nrot : Nat) (fu fl : Bool)
    (shift : Int) : List Mat × Option Nat :=
  let img := heap.getD imageId []
  let msk := heap.getD maskId []
  let heap1 := heap ++ [matAdd img shift]
  let tId := heap.length
  let maskdata := alignMask msk nrot fu fl
  if dims maskdata = dims (matAdd img shift) then
    (heap1.set tId (writeSentinel (matAdd img shift) maskdata), some tId)
  else
    (heap1, none)

/-! ### Basic lemmas about the element-wise operations -/

theorem length_matAdd (m : Mat) (s : Int) : (matAdd m s).length = m.length :=
  List.length_map m _

theorem numCols_matAdd (m : Mat) (s : Int) : numCols (matAdd m s) = numCols m := by
  cases m with
  | nil => rfl
  | cons r t => simp [matAdd, numCols]

theorem dims_matAdd (m : Mat) (s : Int) : dims (matAdd m s) = dims m := by
  simp [dims, numRows, length_matAdd, numCols_matAdd]

theorem isRect_matAdd (m : Mat) (s : Int) (h : isRect m) : isRect (matAdd m s) := by
  intro r hr
  rw [numCols_matAdd]
  simp only [matAdd, List.mem_map] at hr
  obtain ⟨a, ha, rfl⟩ := hr
  simpa using h a ha

theorem row_length (m : Mat) (i : Nat) (h : isRect m) (hi : i < m.length) :
    (m.getD i []).length = numCols m := by
  rw [List.getD_eq_getElem m [] hi]
  exact h _ (List.getElem_mem hi)

theorem getPx_matAdd (m : Mat) (s : Int) (i j : Nat) (hi : i < m.length)
    (hj : j < (m.getD i []).length) :
    getPx (matAdd m s) i j = getPx m i j + s := by
  unfold getPx matAdd
  rw [List.getD_eq_getElem m [] hi] at hj ⊢
  rw [List.getD_eq_getElem _ [] (by simpa using hi)]
  rw [List.getElem_map]
  rw [List.getD_eq_getElem _ 0 (by simpa using hj), List.getD_eq_getElem _ 0 hj]
  rw [List.getElem_map]

theorem length_writeSentinel (t mask : Mat) :
    (writeSentinel t mask).length = min t.length mask.length :=
  List.length_zipWith ..

theorem dims_writeSentinel (t mask : Mat) (h : dims mask = dims t) :
    dims (writeSentinel t mask) = dims t := by
  obtain ⟨h1, h2⟩ : numRows mask = numRows t ∧ numCols mask = numCols t := by
    simpa [dims, Prod.ext_iff] using h
  cases t with
  | nil =>
    cases mask with
    | nil => rfl
    | cons mr mt => simp [numRows] at h1
  | cons tr tt =>
    cases mask with
    | nil => simp [numRows] at h1
    | cons mr mt =>
      simp only [numRows, List.length_cons, Nat.succ_inj] at h1
      simp only [numCols, List.head?_cons, Option.getD_some] at h2
      simp [dims, numRows, numCols, writeSentinel, List.length_zipWith, h1, h2]

theorem getPx_writeSentinel (t mask : Mat) (i j : Nat)
    (hi : i < t.length) (hi2 : i < mask.length)
    (hj : j < (t.getD i []).length) (hj2 : j < (mask.getD i []).length) :
    getPx (writeSentinel t mask) i j = if getPx mask i j = 1 then -1 else getPx t i j := by
  unfold getPx writeSentinel
  rw [List.getD_eq_getElem t [] hi] at hj
  rw [List.getD_eq_getElem mask [] hi2] at hj2
  have hzw : i < (List.zipWith
      (fun tr mr => List.zipWith (fun x v => if v = 1 then -1 else x) tr mr) t mask).length := by
    rw [List.length_zipWith]; omega
  rw [List.getD_eq_getElem _ [] hzw, List.getElem_zipWith]
  have hrow : j < (List.zipWith (fun x v => if v = 1 then -1 else x) t[i] mask[i]).length := by
    rw [List.length_zipWith]; omega
  rw [List.getD_eq_getElem _ 0 hrow, List.getElem_zipWith]
  rw [List.getD_eq_getElem t [] hi, List.getD_eq_getElem mask [] hi2]
  rw [List.getD_eq_getElem _ 0 hj, List.getD_eq_getElem _ 0 hj2]

theorem numCols_writeSentinel (t mask : Mat) (h : dims mask = dims t) :
    numCols (writeSentinel t mask) = numCols t := by
  have h2 := dims_writeSentinel t mask h
  rw [dims, dims, Prod.ext_iff] at h2
  exact h2.2

theorem isRect_writeSentinel (t mask : Mat) (ht : isRect t) (hm : isRect mask)
    (hd : dims mask = dims t) :
    isRect (writeSentinel t mask) := by
  intro r hr
  rw [numCols_writeSentinel t mask hd]
  obtain ⟨hl, hc⟩ : numRows mask = numRows t ∧ numCols mask = numCols t := by
    simpa [dims, Prod.ext_iff] using hd
  unfold writeSentinel at hr
  obtain ⟨i, hi, hr⟩ := List.mem_iff_getElem.mp hr
  rw [List.getElem_zipWith] at hr
  have hit : i < t.length := by
    have h3 := hi; rw [List.length_zipWith] at h3; omega
  have him : i < mask.length := by
    have h3 := hi; rw [List.length_zipWith] at h3; omega
  have h1 : t[i].length = numCols t := ht _ (List.getElem_mem hit)
  have h2 : mask[i].length = numCols mask := hm _ (List.getElem_mem him)
  rw [← hr, List.length_zipWith, h1, h2, hc]
  exact Nat.min_self _

/-! ### Evaluation lemmas for the engine operations -/

theorem alignMask_id (m : Mat) : alignMask m 0 false false = m := rfl

theorem alignMaskGuarded_eq (m : Mat) (k : Nat) (fu fl : Bool) :
    alignMaskGuarded m k fu fl = alignMask m k fu fl := by
  cases k with
  | zero => simp [alignMaskGuarded, alignMask, rotateMask]
  | succ n => simp [alignMaskGuarded, alignMask]

theorem dims_eq_iff (a b : Mat) :
    dims a = dims b ↔ numRows a = numRows b ∧ numCols a = numCols b := by
  simp [dims, Prod.ext_iff]

theorem correctedData_eq_ok (img amask : Mat) (shift : Int) (hdim : dims amask = dims img) :
    correctedData (some img) (some amask) 0 false false shift
      = .ok (writeSentinel (matAdd img shift) amask) := by
  unfold correctedData
  have h : dims amask = dims (matAdd img shift) := by
    rw [dims_matAdd]; exact hdim
  simp only [alignMask_id, h, if_true]

theorem checkForNegativeValues_eq (img amask : Mat) (shift : Int)
    (hdim : dims amask = dims img) :
    checkForNegativeValues (some img) (some amask) 0 false false shift =
      match (selectUnmasked (matAdd img shift) amask).min? with
      | none => .error .emptyMin
      | some minval => if minval < 0 then .ok (some (shift - minval)) else .ok none := by
  simp only [checkForNegativeValues]
  rw [show alignMaskGuarded amask 0 false false = amask from rfl]
  rw [if_pos (show dims amask = dims (matAdd img shift) by rw [dims_matAdd]; exact hdim)]

/-! ### Membership in the boolean selection -/

theorem mem_rowSelect (tr mr : List Int) (x : Int) :
    x ∈ rowSelect tr mr ↔
      ∃ j, j < tr.length ∧ j < mr.length ∧ mr.getD j 0 ≠ 1 ∧ x = tr.getD j 0 := by
  unfold rowSelect
  rw [List.mem_filterMap]
  constructor
  · rintro ⟨⟨a, b⟩, hmem, hfa⟩
    by_cases hb : b = 1
    · simp [hb] at hfa
    · simp only [ne_eq, hb, not_false_eq_true, if_true, Option.some.injEq] at hfa
      obtain ⟨j, hj, hget⟩ := List.mem_iff_getElem.mp hmem
      have hjt : j < tr.length := by
        have h3 := hj; rw [List.length_zip] at h3; omega
      have hjm : j < mr.length := by
        have h3 := hj; rw [List.length_zip] at h3; omega
      rw [List.getElem_zip] at hget
      have ha : tr[j] = a := congrArg Prod.fst hget
      have hbb : mr[j] = b := congrArg Prod.snd hget
      refine ⟨j, hjt, hjm, ?_, ?_⟩
      · rw [List.getD_eq_getElem mr 0 hjm, hbb]; exact hb
      · rw [List.getD_eq_getElem tr 0 hjt, ha, hfa]
  · rintro ⟨j, hjt, hjm, hne, rfl⟩
    refine ⟨(tr.getD j 0, mr.getD j 0), ?_, ?_⟩
    · have hj : j < (tr.zip mr).length := by rw [List.length_zip]; omega
      have : (tr.zip mr)[j] = (tr.getD j 0, mr.getD j 0) := by
        rw [List.getElem_zip, List.getD_eq_getElem tr 0 hjt, List.getD_eq_getElem mr 0 hjm]
      rw [← this]
      exact List.getElem_mem hj
    · simp only [ne_eq, hne, not_false_eq_true, if_true]

theorem mem_selectUnmasked (t mask : Mat) (x : Int) :
    x ∈ selectUnmasked t mask ↔
      ∃ i, i < t.length ∧ i < mask.length ∧
        ∃ j, j < (t.getD i []).length ∧ j < (mask.getD i []).length ∧
          (mask.getD i []).getD j 0 ≠ 1 ∧ x = (t.getD i []).getD j 0 := by
  unfold selectUnmasked
  rw [List.mem_flatten]
  constructor
  · rintro ⟨l, hl, hx⟩
    obtain ⟨i, hi, hget⟩ := List.mem_iff_getElem.mp hl
    have hit : i < t.length := by
      have h3 := hi; rw [List.length_zipWith] at h3; omega
    have him : i < mask.length := by
      have h3 := hi; rw [List.length_zipWith] at h3; omega
    rw [List.getElem_zipWith] at hget
    rw [← hget] at hx
    rw [mem_rowSelect] at hx
    obtain ⟨j, hjt, hjm, hne, hxe⟩ := hx
    refine ⟨i, hit, him, j, ?_, ?_, ?_, ?_⟩
    · rw [List.getD_eq_getElem t [] hit]; exact hjt
    · rw [List.getD_eq_getElem mask [] him]; exact hjm
    · rw [List.getD_eq_getElem mask [] him]; exact hne
    · rw [List.getD_eq_getElem t [] hit]; exact hxe
  · rintro ⟨i, hit, him, j, hjt, hjm, hne, hxe⟩
    refine ⟨rowSelect (t.getD i []) (mask.getD i []), ?_, ?_⟩
    · have hi : i < (List.zipWith rowSelect t mask).length := by
        rw [List.length_zipWith]; omega
      have : (List.zipWith rowSelect t mask)[i] = rowSelect (t.getD i []) (mask.getD i []) := by
        rw [List.getElem_zipWith, List.getD_eq_getElem t [] hit, List.getD_eq_getElem mask [] him]
      rw [← this]
      exact List.getElem_mem hi
    · rw [mem_rowSelect]
      exact ⟨j, by rwa [List.getD_eq_getElem t [] hit] at hjt ⊢,
        by rwa [List.getD_eq_getElem mask [] him] at hjm ⊢, hne, hxe⟩

/-! ### Claim C1 -/

/-- Claim C1: for every intensity array, aligned mask of identical
dimensions, and intensity shift, `correctedData` succeeds and the corrected
image equals -1 at every pixel where the aligned mask equals 1, and equals
`intensity[p] + intensityShift` at every other pixel; its dimensions equal
those of the input intensity array. -/
theorem C1_correctedData_pointwise (img amask : Mat) (shift : Int)
    (hr : isRect img) (hrm : isRect amask) (hdim : dims amask = dims img) :
    ∃ C, correctedData (some img) (some amask) 0 false false shift = Except.ok C ∧
      dims C = dims img ∧
      ∀ i j, i < numRows img → j < numCols img →
        getPx C i j = if getPx amask i j = 1 then -1 else getPx img i j + shift := by
  obtain ⟨hlr, hlc⟩ := (dims_eq_iff amask img).mp hdim
  have hdim2 : dims amask = dims (matAdd img shift) := by rw [dims_matAdd]; exact hdim
  refine ⟨writeSentinel (matAdd img shift) amask, correctedData_eq_ok img amask shift hdim, ?_, ?_⟩
  · rw [dims_writeSentinel _ _ hdim2, dims_matAdd]
  · intro i j hi hj
    have hit : i < (matAdd img shift).length := by rw [length_matAdd]; exact hi
    have him : i < amask.length := by
      have hml : amask.length = img.length := hlr
      rw [hml]; exact hi
    have hjt : j < ((matAdd img shift).getD i []).length := by
      rw [row_length _ i (isRect_matAdd img shift hr) hit, numCols_matAdd]; exact hj
    have hjm : j < (amask.getD i []).length := by
      rw [row_length _ i hrm him, hlc]; exact hj
    rw [getPx_writeSentinel _ _ i j hit him hjt hjm]
    have hji : j < (img.getD i []).length := by rw [row_length _ i hr hi]; exact hj
    rw [getPx_matAdd img shift i j hi hji]

/-- Witness for C1 at Scenario A: intensity [[5,5],[5,5]], mask
[[1,0],[0,1]], shift 0 yields exactly [[-1,5],[5,-1]]. -/
theorem C1_witness :
    correctedData (some [[5,5],[5,5]]) (some [[1,0],[0,1]]) 0 false false 0
        = Except.ok [[-1,5],[5,-1]] ∧
    (∃ C, correctedData (some [[5,5],[5,5]]) (some [[1,0],[0,1]]) 0 false false 0 = Except.ok C ∧
      dims C = dims [[5,5],[5,5]] ∧
      ∀ i j, i < numRows [[5,5],[5,5]] → j < numCols [[5,5],[5,5]] →
        getPx C i j = if getPx [[1,0],[0,1]] i j = 1 then -1 else getPx [[5,5],[5,5]] i j + 0) :=
  ⟨by decide,
   C1_correctedData_pointwise [[5,5],[5,5]] [[1,0],[0,1]] 0 (by decide) (by decide) (by decide)⟩

/-! ### Claim C2 -/

/-- Counterexample to claim C2: with the fully-masked mask [[1]] the
restricted set is empty and `checkForNegativeValues` fails with `emptyMin`
(Python's `min` raises ValueError on an empty sequence); it does not return
"no issue". -/
theorem C2_counterexample :
    checkForNegativeValues (some [[5]]) (some [[1]]) 0 false false 0
        = Except.error EngineError.emptyMin ∧
    checkForNegativeValues (some [[5]]) (some [[1]]) 0 false false 0 ≠ Except.ok none := by
  decide

/-- Claim C2 as amended: for every intensity array and every same-dimension
aligned mask whose pixels are all equal to 1 (fully masked), the restricted
set is empty and `checkForNegativeValues` fails with `emptyMin` (Python's
`min` on an empty sequence raises ValueError) instead of reporting "no
issue", for any intensity shift. -/
theorem C2_amended_fullyMasked_fails (img msk : Mat) (shift : Int)
    (hdim : dims msk = dims img)
    (hall : ∀ r ∈ msk, ∀ v ∈ r, v = 1) :
    checkForNegativeValues (some img) (some msk) 0 false false shift
      = Except.error EngineError.emptyMin := by
  rw [checkForNegativeValues_eq img msk shift hdim]
  have hsel : selectUnmasked (matAdd img shift) msk = [] := by
    unfold selectUnmasked
    rw [List.flatten_eq_nil_iff]
    intro l hl
    obtain ⟨i, hi, hget⟩ := List.mem_iff_getElem.mp hl
    have him : i < msk.length := by
      have h3 := hi; rw [List.length_zipWith] at h3; omega
    rw [List.getElem_zipWith] at hget
    rw [← hget]
    unfold rowSelect
    rw [List.filterMap_eq_nil_iff]
    rintro ⟨a, b⟩ hmem
    have hb : b ∈ msk[i] := (List.of_mem_zip hmem).2
    have hb1 : b = 1 := hall _ (List.getElem_mem him) _ hb
    simp [hb1]
  rw [hsel]
  rfl

/-- Witness for the amended C2 at a fully-masked input with a nonzero
shift. -/
theorem C2_witness :
    checkForNegativeValues (some [[5]]) (some [[1]]) 0 false false 7
      = Except.error EngineError.emptyMin :=
  C2_amended_fullyMasked_fails [[5]] [[1]] 7 (by decide) (by decide)

/-! ### Claim C3 -/

/-- Claim C3: when the dimensions of the aligned mask differ from those of
the intensity array, both `correctedData` and `checkForNegativeValues` fail
with the dimension-mismatch error and produce no result. -/
theorem C3_dimension_mismatch (img msk : Mat) (nrot : Nat) (fu fl : Bool) (shift : Int)
    (hne : dims (alignMask msk nrot fu fl) ≠ dims img) :
    correctedData (some img) (some msk) nrot fu fl shift
        = Except.error EngineError.dimensionMismatch ∧
    checkForNegativeValues (some img) (some msk) nrot fu fl shift
        = Except.error EngineError.dimensionMismatch := by
  have h : ¬ dims (alignMask msk nrot fu fl) = dims (matAdd img shift) := by
    rw [dims_matAdd]; exact hne
  constructor
  · simp only [correctedData]
    rw [if_neg h]
  · simp only [checkForNegativeValues]
    rw [alignMaskGuarded_eq, if_neg h]

/-- Witness for C3 at Scenario D: a 3x2 intensity with a mask left at 2x3
by zero quarter turns fails in both operations. -/
theorem C3_witness :
    correctedData (some [[1,2],[3,4],[5,6]]) (some [[0,0,0],[0,0,0]]) 0 false false 0
        = Except.error EngineError.dimensionMismatch ∧
    checkForNegativeValues (some [[1,2],[3,4],[5,6]]) (some [[0,0,0],[0,0,0]]) 0 false false 0
        = Except.error EngineError.dimensionMismatch :=
  C3_dimension_mismatch [[1,2],[3,4],[5,6]] [[0,0,0],[0,0,0]] 0 false false 0 (by decide)

/-! ### Claim C4 -/

/-- Claim C4: `checkForNegativeValues` restricts attention to exactly the
pixels whose aligned-mask value differs from 1 (every non-1 value counts as
unmasked), and when the minimum of the shifted intensities over that set is
negative it reports the recommended shift `intensityShift - minimum`. -/
theorem C4_restricts_and_recommends (img amask : Mat) (shift : Int)
    (hr : isRect img) (hrm : isRect amask) (hdim : dims amask = dims img) :
    (∀ x, x ∈ selectUnmasked (matAdd img shift) amask ↔
      ∃ i j, i < numRows img ∧ j < numCols img ∧
        getPx amask i j ≠ 1 ∧ x = getPx img i j + shift) ∧
    (∀ m, (selectUnmasked (matAdd img shift) amask).min? = some m → m < 0 →
      checkForNegativeValues (some img) (some amask) 0 false false shift
        = Except.ok (some (shift - m))) := by
  obtain ⟨hlr, hlc⟩ := (dims_eq_iff amask img).mp hdim
  have hmr : amask.length = img.length := hlr
  constructor
  · intro x
    rw [mem_selectUnmasked]
    constructor
    · rintro ⟨i, hit, him, j, hjt, hjm, hne, hxe⟩
      have hi : i < img.length := by rwa [length_matAdd] at hit
      have hji : j < (img.getD i []).length := by
        rw [row_length _ i hr hi]
        rw [row_length _ i (isRect_matAdd img shift hr) hit, numCols_matAdd] at hjt
        exact hjt
      refine ⟨i, j, hi, ?_, hne, ?_⟩
      · rw [← row_length _ i hr hi]; exact hji
      · rw [← getPx_matAdd img shift i j hi hji]; exact hxe
    · rintro ⟨i, j, hi, hj, hne, hxe⟩
      have hit : i < (matAdd img shift).length := by rw [length_matAdd]; exact hi
      have him : i < amask.length := by rw [hmr]; exact hi
      have hji : j < (img.getD i []).length := by rw [row_length _ i hr hi]; exact hj
      have hjt : j < ((matAdd img shift).getD i []).length := by
        rw [row_length _ i (isRect_matAdd img shift hr) hit, numCols_matAdd]; exact hj
      have hjm : j < (amask.getD i []).length := by
        rw [row_length _ i hrm him, hlc]; exact hj
      refine ⟨i, hit, him, j, hjt, hjm, hne, ?_⟩
      rw [show ((matAdd img shift).getD i []).getD j 0 = getPx (matAdd img shift) i j from rfl]
      rw [getPx_matAdd img shift i j hi hji]
      exact hxe
  · intro m hmin hneg
    rw [checkForNegativeValues_eq img amask shift hdim, hmin]
    simp only [if_pos hneg]

/-- Witness for C4 at Scenario B: intensity [[-3,10],[10,10]], all-zero
mask, shift 0 gives recommended shift 3. -/
theorem C4_witness :
    checkForNegativeValues (some [[-3,10],[10,10]]) (some [[0,0],[0,0]]) 0 false false 0
      = Except.ok (some 3) := by
  have h := (C4_restricts_and_recommends [[-3,10],[10,10]] [[0,0],[0,0]] 0
    (by decide) (by decide) (by decide)).2 (-3) (by decide) (by decide)
  have h3 : (0 : Int) - (-3) = 3 := by decide
  rw [h3] at h
  exact h

/-! ### Geometry of the alignment transform -/

theorem length_transposeM (m : Mat) : (transposeM m).length = numCols m := by
  simp [transposeM]

theorem getElem_transposeM (m : Mat) (j : Nat) (hj : j < (transposeM m).length) :
    (transposeM m)[j] = m.map (fun r => r.getD j 0) := by
  unfold transposeM
  rw [List.getElem_map]
  rw [List.getElem_range]

theorem numCols_transposeM (m : Mat) (h : 0 < numCols m) : numCols (transposeM m) = m.length := by
  obtain ⟨n, hn⟩ : ∃ n, numCols m = n + 1 := ⟨numCols m - 1, by omega⟩
  unfold transposeM
  rw [hn, List.range_succ_eq_map]
  simp [numCols]

theorem isRect_transposeM (m : Mat) : isRect (transposeM m) := by
  intro r hr
  have hpos : 0 < numCols m := by
    by_contra hc
    have h0 : numCols m = 0 := by omega
    have : transposeM m = [] := by unfold transposeM; rw [h0]; rfl
    rw [this] at hr
    exact absurd hr (List.not_mem_nil r)
  rw [numCols_transposeM m hpos]
  unfold transposeM at hr
  simp only [List.mem_map] at hr
  obtain ⟨j, hj, rfl⟩ := hr
  exact List.length_map m _

theorem numCols_reverse (m : Mat) (h : isRect m) : numCols m.reverse = numCols m := by
  cases hrev : m.reverse with
  | nil =>
    have hm : m = [] := List.reverse_eq_nil_iff.mp hrev
    rw [hm]
  | cons r t =>
    have hmem : r ∈ m.reverse := by rw [hrev]; exact List.mem_cons_self r t
    have hr : r ∈ m := List.mem_reverse.mp hmem
    show numCols (r :: t) = numCols m
    show r.length = numCols m
    exact h r hr

theorem isRect_reverse (m : Mat) (h : isRect m) : isRect m.reverse := by
  intro r hr
  rw [numCols_reverse m h]
  exact h r (List.mem_reverse.mp hr)

theorem dims_flipud (m : Mat) (h : isRect m) : dims (flipud m) = dims m := by
  simp [dims, numRows, flipud, numCols_reverse m h]

theorem isRect_flipud (m : Mat) (h : isRect m) : isRect (flipud m) := isRect_reverse m h

theorem dims_fliplr (m : Mat) : dims (fliplr m) = dims m := by
  cases m with
  | nil => rfl
  | cons r t => simp [dims, numRows, numCols, fliplr]

theorem length_rot90 (m : Mat) : (rot90 m).length = numCols m := by
  simp [rot90, length_transposeM]

theorem numCols_rot90 (m : Mat) (h : 0 < numCols m) : numCols (rot90 m) = m.length := by
  unfold rot90
  rw [numCols_reverse _ (isRect_transposeM m), numCols_transposeM m h]

theorem isRect_rot90 (m : Mat) : isRect (rot90 m) :=
  isRect_reverse _ (isRect_transposeM m)

theorem dims_rot90 (m : Mat) (h : 0 < numCols m) :
    dims (rot90 m) = (numCols m, numRows m) := by
  simp [dims, numRows, length_rot90, numCols_rot90 m h]

theorem getD_row_range (l : List Int) :
    (List.range l.length).map (fun j => l.getD j 0) = l := by
  apply List.ext_getElem
  · simp
  · intro i h1 h2
    rw [List.getElem_map, List.getElem_range]
    exact List.getD_eq_getElem l 0 h2

theorem transposeM_transposeM (m : Mat) (h : isRect m)
    (h2 : 0 < numCols m) : transposeM (transposeM m) = m := by
  have hc : numCols (transposeM m) = m.length := numCols_transposeM m h2
  apply List.ext_getElem
  · rw [length_transposeM, hc]
  · intro i hi him
    have hi2 : i < (transposeM (transposeM m)).length := hi
    rw [getElem_transposeM _ i hi2]
    have hrow : ∀ j, (m.map (fun r => r.getD j 0)).getD i 0 = m[i].getD j 0 := by
      intro j
      rw [List.getD_eq_getElem _ 0 (by simpa using him), List.getElem_map]
    unfold transposeM
    rw [List.map_map]
    have hmap : ((List.range (numCols m)).map
        ((fun r => r.getD i 0) ∘ fun j => m.map (fun r => r.getD j 0)))
        = (List.range (numCols m)).map (fun j => m[i].getD j 0) :=
      List.map_congr_left (fun j _ => hrow j)
    rw [hmap]
    have hlen : numCols m = m[i].length := (h m[i] (List.getElem_mem him)).symm
    rw [hlen, getD_row_range]

theorem transposeM_reverse (m : Mat) (h : isRect m) :
    transposeM m.reverse = (transposeM m).map List.reverse := by
  unfold transposeM
  rw [numCols_reverse m h, List.map_map]
  apply List.map_congr_left
  intro j _
  simp only [Function.comp]
  exact List.map_reverse _ m

theorem rot2_eq (m : Mat) (h : isRect m) (h2 : 0 < numCols m) :
    rot90 (rot90 m) = (m.map List.reverse).reverse := by
  show (transposeM ((transposeM m).reverse)).reverse = (m.map List.reverse).reverse
  rw [transposeM_reverse _ (isRect_transposeM m), transposeM_transposeM m h h2]

theorem rot4_eq (m : Mat) (h : isRect m) (h1 : 0 < m.length) (h2 : 0 < numCols m) :
    rot90 (rot90 (rot90 (rot90 m))) = m := by
  have hm2rect : isRect (rot90 (rot90 m)) := isRect_rot90 _
  have hc1 : numCols (rot90 m) = m.length := numCols_rot90 m h2
  have hl1 : (rot90 m).length = numCols m := length_rot90 m
  have hm2len : 0 < (rot90 (rot90 m)).length := by rw [length_rot90, hc1]; exact h1
  have hm2cols : 0 < numCols (rot90 (rot90 m)) := by
    rw [numCols_rot90 _ (by rw [hc1]; exact h1), hl1]; exact h2
  rw [rot2_eq (rot90 (rot90 m)) hm2rect hm2cols]
  rw [rot2_eq m h h2]
  rw [List.map_reverse, List.reverse_reverse, List.map_map]
  have : m.map (List.reverse ∘ List.reverse) = m.map id :=
    List.map_congr_left (fun r _ => List.reverse_reverse r)
  rw [this, List.map_id]

theorem dims_flipPipeline (x : Mat) (fu fl : Bool) (hx : isRect x) :
    dims (if fl then fliplr (if fu then flipud x else x) else (if fu then flipud x else x))
      = dims x := by
  cases fu <;> cases fl <;>
    simp only [if_true, if_false, Bool.false_eq_true, Bool.true_eq_false, dims_fliplr,
      dims_flipud x hx]

theorem isRect_rotIter (m : Mat) (k : Nat) (hr : isRect m) : isRect (rot90^[k] m) := by
  cases k with
  | zero => exact hr
  | succ n =>
    rw [Function.iterate_succ_apply']
    exact isRect_rot90 _

/-! ### Claim C5 -/

/-- Claim C5: `alignMask` applies rotation first, then the vertical flip,
then the horizontal flip; rotation by `k` quarter turns is `k` applications
of the standard counter-clockwise quarter turn (transpose then reverse the
rows); for odd `k` the output dimensions are swapped and for even `k` they
are unchanged. -/
theorem C5_alignMask_order (m : Mat) (k : Nat) (fu fl : Bool)
    (hr : isRect m) (h1 : 0 < numRows m) (h2 : 0 < numCols m) (hk : k < 4) :
    alignMask m k fu fl
        = (if fl then fliplr (if fu then flipud (rot90^[k] m) else rot90^[k] m)
           else (if fu then flipud (rot90^[k] m) else rot90^[k] m)) ∧
    rot90 m = (transposeM m).reverse ∧
    rotateMask m k = rot90^[k] m ∧
    dims (alignMask m k fu fl) = (if k % 2 = 1 then (numCols m, numRows m) else dims m) := by
  refine ⟨rfl, rfl, rfl, ?_⟩
  have hpipe : alignMask m k fu fl
      = (if fl then fliplr (if fu then flipud (rot90^[k] m) else rot90^[k] m)
         else (if fu then flipud (rot90^[k] m) else rot90^[k] m)) := rfl
  rw [hpipe, dims_flipPipeline _ fu fl (isRect_rotIter m k hr)]
  have hc1 : numCols (rot90 m) = m.length := numCols_rot90 m h2
  have hl1 : (rot90 m).length = numCols m := length_rot90 m
  interval_cases k
  · simp
  · show dims (rot90 m) = _
    rw [dims_rot90 m h2]
    simp
  · show dims (rot90 (rot90 m)) = _
    rw [dims_rot90 _ (by rw [hc1]; exact h1)]
    simp [dims, numRows, hc1, hl1]
  · show dims (rot90 (rot90 (rot90 m))) = _
    have hc2 : numCols (rot90 (rot90 m)) = (rot90 m).length :=
      numCols_rot90 _ (by rw [hc1]; exact h1)
    rw [dims_rot90 _ (by rw [hc2, hl1]; exact h2)]
    simp [dims, numRows, hc2, hl1, length_rot90, hc1]

/-- Witness for C5 at Scenario C: rotating the 2x2 mask [[1,2],[3,4]] by
one quarter turn yields [[2,4],[1,3]] with dimensions unchanged. -/
theorem C5_witness :
    alignMask [[1,2],[3,4]] 1 false false = [[2,4],[1,3]] ∧
    (alignMask [[1,2],[3,4]] 1 false false
        = (if false then fliplr (if false then flipud (rot90^[1] [[1,2],[3,4]])
              else rot90^[1] [[1,2],[3,4]])
           else (if false then flipud (rot90^[1] [[1,2],[3,4]]) else rot90^[1] [[1,2],[3,4]])) ∧
     rot90 [[1,2],[3,4]] = (transposeM [[1,2],[3,4]]).reverse ∧
     rotateMask [[1,2],[3,4]] 1 = rot90^[1] [[1,2],[3,4]] ∧
     dims (alignMask [[1,2],[3,4]] 1 false false)
        = (if 1 % 2 = 1 then (numCols [[1,2],[3,4]], numRows [[1,2],[3,4]])
           else dims [[1,2],[3,4]])) :=
  ⟨by decide,
   C5_alignMask_order [[1,2],[3,4]] 1 false false (by decide) (by decide) (by decide) (by decide)⟩

/-! ### Claim C6 -/

theorem getPx_corrected (img amask : Mat) (shift : Int) (hr : isRect img) (hrm : isRect amask)
    (hdim : dims amask = dims img) (i j : Nat) (hi : i < numRows img) (hj : j < numCols img) :
    getPx (writeSentinel (matAdd img shift) amask) i j
      = if getPx amask i j = 1 then -1 else getPx img i j + shift := by
  obtain ⟨hlr, hlc⟩ := (dims_eq_iff amask img).mp hdim
  have hit : i < (matAdd img shift).length := by rw [length_matAdd]; exact hi
  have him : i < amask.length := by
    have hml : amask.length = img.length := hlr
    rw [hml]; exact hi
  have hjt : j < ((matAdd img shift).getD i []).length := by
    rw [row_length _ i (isRect_matAdd img shift hr) hit, numCols_matAdd]; exact hj
  have hjm : j < (amask.getD i []).length := by
    rw [row_length _ i hrm him, hlc]; exact hj
  rw [getPx_writeSentinel _ _ i j hit him hjt hjm]
  have hji : j < (img.getD i []).length := by rw [row_length _ i hr hi]; exact hj
  rw [getPx_matAdd img shift i j hi hji]

/-- Claim C6: `correctedData` is not idempotent end-to-end when the shift is
nonzero: re-running it on its own output with the same mask and shift gives
-1 again at every masked pixel, but at every unmasked pixel the second
output differs from the first (the shift is added a second time). -/
theorem C6_not_idempotent (img amask : Mat) (shift : Int)
    (hr : isRect img) (hrm : isRect amask) (hdim : dims amask = dims img) (hs : shift ≠ 0) :
    ∃ out1 out2,
      correctedData (some img) (some amask) 0 false false shift = Except.ok out1 ∧
      correctedData (some out1) (some amask) 0 false false shift = Except.ok out2 ∧
      ∀ i j, i < numRows img → j < numCols img →
        (getPx amask i j = 1 → getPx out2 i j = -1) ∧
        (getPx amask i j ≠ 1 → getPx out2 i j ≠ getPx out1 i j) := by
  have hdim2 : dims amask = dims (matAdd img shift) := by rw [dims_matAdd]; exact hdim
  have hout1dims : dims (writeSentinel (matAdd img shift) amask) = dims img := by
    rw [dims_writeSentinel _ _ hdim2, dims_matAdd]
  have hout1rect : isRect (writeSentinel (matAdd img shift) amask) :=
    isRect_writeSentinel _ _ (isRect_matAdd img shift hr) hrm hdim2
  have hdim3 : dims amask = dims (writeSentinel (matAdd img shift) amask) := by
    rw [hout1dims]; exact hdim
  refine ⟨writeSentinel (matAdd img shift) amask,
    writeSentinel (matAdd (writeSentinel (matAdd img shift) amask) shift) amask,
    correctedData_eq_ok img amask shift hdim,
    correctedData_eq_ok _ amask shift hdim3, ?_⟩
  intro i j hi hj
  obtain ⟨hor, hoc⟩ := (dims_eq_iff (writeSentinel (matAdd img shift) amask) img).mp hout1dims
  have h2 := getPx_corrected (writeSentinel (matAdd img shift) amask) amask shift
    hout1rect hrm hdim3 i j (by rw [hor]; exact hi) (by rw [hoc]; exact hj)
  have h1 := getPx_corrected img amask shift hr hrm hdim i j hi hj
  constructor
  · intro hm
    rw [h2, if_pos hm]
  · intro hm
    rw [h2, if_neg hm, h1, if_neg hm]
    intro hcontra
    apply hs
    omega

/-- Witness for C6: intensity [[5,5],[5,5]], mask [[1,0],[0,1]], shift 1. -/
theorem C6_witness :
    ∃ out1 out2,
      correctedData (some [[5,5],[5,5]]) (some [[1,0],[0,1]]) 0 false false 1 = Except.ok out1 ∧
      correctedData (some out1) (some [[1,0],[0,1]]) 0 false false 1 = Except.ok out2 ∧
      ∀ i j, i < numRows [[5,5],[5,5]] → j < numCols [[5,5],[5,5]] →
        (getPx [[1,0],[0,1]] i j = 1 → getPx out2 i j = -1) ∧
        (getPx [[1,0],[0,1]] i j ≠ 1 → getPx out2 i j ≠ getPx out1 i j) :=
  C6_not_idempotent [[5,5],[5,5]] [[1,0],[0,1]] 1 (by decide) (by decide) (by decide) (by decide)

/-! ### Claim C7 -/

/-- Claim C7: aligning with `k` quarter turns and no flips and then aligning
the result with `(4 - k) % 4` quarter turns and no flips returns the mask
unchanged, and aligning with zero turns and no flips is the identity. -/
theorem C7_rotation_invertible (m : Mat) (k : Nat)
    (hr : isRect m) (h1 : 0 < numRows m) (h2 : 0 < numCols m) (hk : k < 4) :
    alignMask (alignMask m k false false) ((4 - k) % 4) false false = m ∧
    alignMask m 0 false false = m := by
  refine ⟨?_, rfl⟩
  have ha : ∀ (x : Mat) (k2 : Nat), alignMask x k2 false false = rot90^[k2] x := fun _ _ => rfl
  rw [ha, ha]
  have h4 : rot90^[4] m = m := rot4_eq m hr h1 h2
  interval_cases k
  · rfl
  · rw [← Function.iterate_add_apply]
    exact h4
  · rw [← Function.iterate_add_apply]
    exact h4
  · rw [← Function.iterate_add_apply]
    exact h4

/-- Witness for C7: the 2x2 mask [[1,2],[3,4]] with one quarter turn and
its inverse three quarter turns. -/
theorem C7_witness :
    alignMask (alignMask [[1,2],[3,4]] 1 false false) ((4 - 1) % 4) false false = [[1,2],[3,4]] ∧
    alignMask [[1,2],[3,4]] 0 false false = [[1,2],[3,4]] :=
  C7_rotation_invertible [[1,2],[3,4]] 1 (by decide) (by decide) (by decide) (by decide)

/-! ### Claim C8 -/

/-- Claim C8: whenever either the intensity data or the mask data is
absent, the corrected-data computation, the negative-value check, and the
save operation all refuse to run with the missing-input report and produce
no corrected array. -/
theorem C8_missing_input (o : Option Mat) (img : Mat) (nrot : Nat) (fu fl : Bool) (shift : Int) :
    correctedData none o nrot fu fl shift = Except.error EngineError.missingInput ∧
    correctedData (some img) none nrot fu fl shift = Except.error EngineError.missingInput ∧
    checkForNegativeValues none o nrot fu fl shift = Except.error EngineError.missingInput ∧
    checkForNegativeValues (some img) none nrot fu fl shift
        = Except.error EngineError.missingInput ∧
    save_tif none o nrot fu fl shift = Except.error EngineError.missingInput ∧
    save_tif (some img) none nrot fu fl shift = Except.error EngineError.missingInput := by
  refine ⟨?_, rfl, ?_, rfl, ?_, rfl⟩ <;> cases o <;> rfl

/-! ### Claim C9 -/

theorem getD_append_lt (heap : List Mat) (v : Mat) (i : Nat) (hi : i < heap.length) :
    (heap ++ [v]).getD i [] = heap.getD i [] := by
  rw [List.getD_eq_getElem?_getD, List.getD_eq_getElem?_getD]
  rw [List.getElem?_append, if_pos hi]

theorem getD_set_append_lt (heap : List Mat) (v w : Mat) (i : Nat) (hi : i < heap.length) :
    ((heap ++ [v]).set heap.length w).getD i [] = heap.getD i [] := by
  rw [List.getD_eq_getElem?_getD]
  rw [List.getElem?_set_ne (by omega : heap.length ≠ i)]
  rw [← List.getD_eq_getElem?_getD]
  exact getD_append_lt heap v i hi

theorem getD_set_append_self (heap : List Mat) (v w : Mat) :
    ((heap ++ [v]).set heap.length w).getD heap.length [] = w := by
  rw [List.getD_eq_getElem?_getD]
  rw [List.getElem?_set_self (by simp : heap.length < (heap ++ [v]).length)]
  rfl

/-- Claim C9: `correctedData` builds its result in a freshly allocated
array (`intensity + intensityShift`) and performs the in-place sentinel
store only on that fresh array, so no array that existed before the call —
in particular the input intensity array — is ever mutated. -/
theorem C9_no_mutation (heap : List Mat) (imageId maskId nrot : Nat) (fu fl : Bool) (shift : Int)
    (hi : imageId < heap.length) :
    ((heapCorrectedData heap imageId maskId nrot fu fl shift).1.getD imageId []
        = heap.getD imageId []) ∧
    (∀ i, i < heap.length →
      (heapCorrectedData heap imageId maskId nrot fu fl shift).1.getD i [] = heap.getD i []) ∧
    (∀ t, (heapCorrectedData heap imageId maskId nrot fu fl shift).2 = some t →
      (heapCorrectedData heap imageId maskId nrot fu fl shift).1.getD t []
        = writeSentinel (matAdd (heap.getD imageId []) shift)
            (alignMask (heap.getD maskId []) nrot fu fl)) := by
  unfold heapCorrectedData
  by_cases hd : dims (alignMask (heap.getD maskId []) nrot fu fl)
      = dims (matAdd (heap.getD imageId []) shift)
  · simp only [hd, if_true]
    refine ⟨getD_set_append_lt heap _ _ imageId hi,
      fun i hil => getD_set_append_lt heap _ _ i hil, ?_⟩
    intro t ht
    have htl : t = heap.length := (Option.some.inj ht).symm
    rw [htl]
    exact getD_set_append_self heap _ _
  · simp only [hd, if_false]
    refine ⟨getD_append_lt heap _ imageId hi,
      fun i hil => getD_append_lt heap _ i hil, ?_⟩
    intro t ht
    exact absurd ht (by simp)

/-- Witness for C9 on a one-array heap. -/
theorem C9_witness :
    ((heapCorrectedData [[[5]]] 0 0 0 false false 0).1.getD 0 [] = [[[5]]].getD 0 []) ∧
    (∀ i, i < [[[5]]].length →
      (heapCorrectedData [[[5]]] 0 0 0 false false 0).1.getD i [] = [[[5]]].getD i []) ∧
    (∀ t, (heapCorrectedData [[[5]]] 0 0 0 false false 0).2 = some t →
      (heapCorrectedData [[[5]]] 0 0 0 false false 0).1.getD t []
        = writeSentinel (matAdd ([[[5]]].getD 0 []) 0)
            (alignMask ([[[5]]].getD 0 []) 0 false false)) :=
  C9_no_mutation [[[5]]] 0 0 0 false false 0 (by decide)

/-! ### Claim C10 -/

theorem zipWith_sentinel_id (tr mr : List Int) (hlen : tr.length ≤ mr.length)
    (hno : ∀ v ∈ mr, v ≠ 1) :
    List.zipWith (fun x v => if v = 1 then -1 else x) tr mr = tr := by
  induction tr generalizing mr with
  | nil => simp
  | cons a t ih =>
    cases mr with
    | nil => simp at hlen
    | cons b mt =>
      simp only [List.zipWith_cons_cons]
      rw [if_neg (hno b (List.mem_cons_self b mt))]
      rw [ih mt (by simpa using hlen) (fun v hv => hno v (List.mem_cons_of_mem b hv))]

theorem writeSentinel_id (t mask : Mat) (ht : isRect t) (hm : isRect mask)
    (hd : dims mask = dims t) (hno : ∀ r ∈ mask, ∀ v ∈ r, v ≠ 1) :
    writeSentinel t mask = t := by
  obtain ⟨hlr, hlc⟩ := (dims_eq_iff mask t).mp hd
  have hml : mask.length = t.length := hlr
  unfold writeSentinel
  apply List.ext_getElem
  · rw [List.length_zipWith]; omega
  · intro i h1 h2
    rw [List.getElem_zipWith]
    have hmi : i < mask.length := by omega
    apply zipWith_sentinel_id
    · rw [ht t[i] (List.getElem_mem h2), hm mask[i] (List.getElem_mem hmi), hlc]
    · exact fun v hv => hno mask[i] (List.getElem_mem hmi) v hv

/-- Claim C10: when the aligned mask contains no pixel equal to 1,
`correctedData` succeeds with no empty-set failure and returns exactly
`intensity + intensityShift`, writing the sentinel nowhere. -/
theorem C10_nothing_masked (img amask : Mat) (shift : Int)
    (hr : isRect img) (hrm : isRect amask) (hdim : dims amask = dims img)
    (hno : ∀ r ∈ amask, ∀ v ∈ r, v ≠ 1) :
    correctedData (some img) (some amask) 0 false false shift = Except.ok (matAdd img shift) := by
  rw [correctedData_eq_ok img amask shift hdim]
  have hdim2 : dims amask = dims (matAdd img shift) := by rw [dims_matAdd]; exact hdim
  rw [writeSentinel_id (matAdd img shift) amask (isRect_matAdd img shift hr) hrm hdim2 hno]

/-- Witness for C10: a mask holding only the non-1 values 0, 2 and 255
leaves every pixel unmasked and the result is the shifted intensity. -/
theorem C10_witness :
    correctedData (some [[5,5],[5,5]]) (some [[0,2],[255,0]]) 0 false false 1
      = Except.ok [[6,6],[6,6]] := by
  have h := C10_nothing_masked [[5,5],[5,5]] [[0,2],[255,0]] 1
    (by decide) (by decide) (by decide) (by decide)
  rw [show matAdd [[5,5],[5,5]] 1 = [[6,6],[6,6]] from by decide] at h
  exact h

end MaskTiff
